import Mathlib

/-!
# Verification of the menu utilities of the `mast` repository

Shallow embedding of the price utilities (`src/utils/priceUtils.ts`), the menu
analytics engine (`src/utils/menuCalculations.ts`), the `AddItemScreen.handleSave`
validation boundary (`src/screens/AddItemScreen.tsx`) and the persistence
gateway contract (`src/utils/storage.ts`, modelled from the spec).

JavaScript numbers are idealised as exact rationals (`ℚ`), with the three
non-finite values (`NaN`, `Infinity`, `-Infinity`) represented explicitly by
the `JSNum` type where the code can produce or consume them.  `Math.round`
is ECMAScript's: nearest integer, ties toward positive infinity.
-/

namespace Mast

/-- Model of the ECMAScript `Math.round` builtin on an exact rational:
the nearest integer, with ties rounded toward positive infinity,
i.e. `⌊x + 1/2⌋`. -/
def jsMathRound (x : ℚ) : ℤ := ⌊x + 1 / 2⌋

/-- `roundPrice` from `src/utils/priceUtils.ts`:
`Math.round(price * 100) / 100`. -/
def roundPrice (price : ℚ) : ℚ := (jsMathRound (price * 100) : ℚ) / 100

/-- `roundPrice x` is `n / 100` for the integer `n = ⌊x*100 + 1/2⌋`. -/
theorem roundPrice_def (x : ℚ) : roundPrice x = (⌊x * 100 + 1 / 2⌋ : ℚ) / 100 := rfl

/-- The scaled value `x * 100` lies in `[n - 1/2, n + 1/2)` for the integer
`n` produced by `jsMathRound`: that interval characterises
"nearest integer, ties toward positive infinity". -/
theorem jsMathRound_char (x : ℚ) :
    (jsMathRound x : ℚ) - 1 / 2 ≤ x ∧ x < (jsMathRound x : ℚ) + 1 / 2 := by
  unfold jsMathRound
  constructor
  · have h := Int.floor_le (x + 1 / 2)
    linarith
  · have h := Int.lt_floor_add_one (x + 1 / 2)
    linarith

/-- Applying `roundPrice` to `n / 100` for an integer `n` gives back `n / 100`. -/
theorem roundPrice_intCast_div (n : ℤ) : roundPrice ((n : ℚ) / 100) = (n : ℚ) / 100 := by
  unfold roundPrice jsMathRound
  have h : (n : ℚ) / 100 * 100 = (n : ℚ) := by
    field_simp
  rw [h, Int.floor_int_add]
  norm_num

/-! ## JavaScript numbers and `parseFloat` -/

/-- A JavaScript number as seen by the price utilities: an exact rational,
`NaN`, or one of the two infinities. -/
inductive JSNum where
  | nan : JSNum
  | posInf : JSNum
  | negInf : JSNum
  | num (q : ℚ) : JSNum
deriving DecidableEq

/-- Model of the JavaScript `isNaN` test on a number. -/
def jsIsNaN : JSNum → Bool
  | JSNum.nan => true
  | _ => false

/-- Model of the JavaScript `<` comparison on numbers
(`NaN` compares false with everything). -/
def jsLt : JSNum → JSNum → Bool
  | JSNum.nan, _ => false
  | _, JSNum.nan => false
  | JSNum.negInf, JSNum.negInf => false
  | JSNum.negInf, _ => true
  | _, JSNum.negInf => false
  | JSNum.posInf, _ => false
  | JSNum.num _, JSNum.posInf => true
  | JSNum.num p, JSNum.num q => decide (p < q)

/-- Model of the JavaScript `<=` comparison on numbers
(`NaN` compares false with everything). -/
def jsLe : JSNum → JSNum → Bool
  | JSNum.nan, _ => false
  | _, JSNum.nan => false
  | JSNum.negInf, _ => true
  | _, JSNum.negInf => false
  | _, JSNum.posInf => true
  | JSNum.posInf, _ => false
  | JSNum.num p, JSNum.num q => decide (p ≤ q)

/-- A JS number is a finite value. -/
def jsIsFinite : JSNum → Bool
  | JSNum.num _ => true
  | _ => false

/-- `Math.round(x * 100) / 100` extended to the JS non-finite values:
`Math.round` fixes `NaN` and the infinities, and dividing those by `100`
leaves them unchanged as well. -/
def roundPriceJS : JSNum → JSNum
  | JSNum.num q => JSNum.num (roundPrice q)
  | x => x

/-- Discrete outcome of scanning a string with the `parseFloat` grammar:
no numeric prefix, a signed infinity, or a finite literal with sign,
mantissa digits and a power-of-ten scale (value `± mant * 10 ^ scale`). -/
inductive ParseOut where
  | nan : ParseOut
  | inf (neg : Bool) : ParseOut
  | fin (neg : Bool) (mant : ℕ) (scale : ℤ) : ParseOut
deriving DecidableEq

/-- Accumulate decimal digits into a natural number. -/
def digitsToNat (acc : ℕ) : List Char → ℕ
  | [] => acc
  | c :: cs => digitsToNat (acc * 10 + (c.toNat - '0'.toNat)) cs

/-- Does the second list start with the first one? -/
def charsPre : List Char → List Char → Bool
  | [], _ => true
  | _ :: _, [] => false
  | a :: as, b :: bs => a == b && charsPre as bs

/-- Scan an optional exponent part (`[+-]? digits`); an exponent marker not
followed by a digit contributes nothing, as `parseFloat` only consumes the
longest valid literal prefix. -/
def expPart (cs : List Char) : ℤ :=
  let (eneg, cs1) : Bool × List Char :=
    match cs with
    | '-' :: rest => (true, rest)
    | '+' :: rest => (false, rest)
    | _ => (false, cs)
  let ds := cs1.takeWhile Char.isDigit
  if ds.isEmpty then 0
  else if eneg then -(digitsToNat 0 ds : ℤ) else (digitsToNat 0 ds : ℤ)

/-- Model of the ECMAScript `parseFloat` scanner on the character list:
skip leading whitespace, read an optional sign, then either `Infinity` or a
decimal literal `digits [. digits] [eE [+-] digits]`; anything after the
longest valid prefix is ignored, and `NaN` results when no digit is found. -/
def parseFloatCore (cs0 : List Char) : ParseOut :=
  let cs := cs0.dropWhile Char.isWhitespace
  let (neg, cs1) : Bool × List Char :=
    match cs with
    | '-' :: rest => (true, rest)
    | '+' :: rest => (false, rest)
    | _ => (false, cs)
  if charsPre "Infinity".toList cs1 then ParseOut.inf neg
  else
    let intDigits := cs1.takeWhile Char.isDigit
    let rest := cs1.dropWhile Char.isDigit
    let (fracDigits, rest2) : List Char × List Char :=
      match rest with
      | '.' :: r => (r.takeWhile Char.isDigit, r.dropWhile Char.isDigit)
      | _ => ([], rest)
    if intDigits.isEmpty && fracDigits.isEmpty then ParseOut.nan
    else
      let e : ℤ :=
        match rest2 with
        | 'e' :: r => expPart r
        | 'E' :: r => expPart r
        | _ => 0
      ParseOut.fin neg (digitsToNat (digitsToNat 0 intDigits) fracDigits)
        (e - fracDigits.length)

/-- Model of the JavaScript `parseFloat` builtin, producing a `JSNum`. -/
def parseFloat (s : String) : JSNum :=
  match parseFloatCore s.toList with
  | ParseOut.nan => JSNum.nan
  | ParseOut.inf true => JSNum.negInf
  | ParseOut.inf false => JSNum.posInf
  | ParseOut.fin neg mant scale =>
      JSNum.num ((if neg then (-1 : ℚ) else 1) * mant * (10 : ℚ) ^ scale)

/-- `parsePrice` from `src/utils/priceUtils.ts`:
`parseFloat`, then `0` when the result `isNaN` or is `< 0`,
else `roundPrice` of it. -/
def parsePrice (priceString : String) : JSNum :=
  let parsed := parseFloat priceString
  if jsIsNaN parsed || jsLt parsed (JSNum.num 0) then JSNum.num 0
  else roundPriceJS parsed

/-- `isValidPrice` from `src/utils/priceUtils.ts` on a possibly-undefined
number: `price !== undefined && price !== null && !isNaN(price) && price >= 0`. -/
def isValidPrice : Option JSNum → Bool
  | none => false
  | some p => !jsIsNaN p && jsLe (JSNum.num 0) p

/-! ## Helper lemmas about `parsePrice` -/

/-- Helper: when `parseFloat` yields `NaN`, `parsePrice` yields `0`. -/
theorem parsePrice_eq_zero_of_nan (s : String) (h : parseFloat s = JSNum.nan) :
    parsePrice s = JSNum.num 0 := by
  unfold parsePrice
  rw [h]
  rfl

/-- Helper: when `parseFloat` yields `-Infinity`, `parsePrice` yields `0`. -/
theorem parsePrice_eq_zero_of_negInf (s : String) (h : parseFloat s = JSNum.negInf) :
    parsePrice s = JSNum.num 0 := by
  unfold parsePrice
  rw [h]
  rfl

/-- Helper: when `parseFloat` yields a negative rational, `parsePrice` yields `0`. -/
theorem parsePrice_eq_zero_of_neg (s : String) (q : ℚ) (h : parseFloat s = JSNum.num q)
    (hq : q < 0) : parsePrice s = JSNum.num 0 := by
  unfold parsePrice
  rw [h]
  simp [jsIsNaN, jsLt, hq]

/-- Helper: when `parseFloat` yields a non-negative rational, `parsePrice`
rounds it to the cent grid. -/
theorem parsePrice_round_of_nonneg (s : String) (q : ℚ) (h : parseFloat s = JSNum.num q)
    (hq : 0 ≤ q) : parsePrice s = JSNum.num (roundPrice q) := by
  unfold parsePrice
  rw [h]
  simp [jsIsNaN, jsLt, not_lt.mpr hq, roundPriceJS]

/-- Helper: when `parseFloat` yields `+Infinity`, `parsePrice` passes it through. -/
theorem parsePrice_posInf (s : String) (h : parseFloat s = JSNum.posInf) :
    parsePrice s = JSNum.posInf := by
  unfold parsePrice
  rw [h]
  rfl

/-- Helper: `parseFloat "12.5"` is the rational `25/2`. -/
theorem parseFloat_12_5 : parseFloat "12.5" = JSNum.num (25 / 2) := by
  unfold parseFloat
  rw [show parseFloatCore "12.5".toList = ParseOut.fin false 125 (-1) from by decide]
  norm_num

/-- Helper: `parseFloat "12.567"` is the rational `12567/1000`. -/
theorem parseFloat_12_567 : parseFloat "12.567" = JSNum.num (12567 / 1000) := by
  unfold parseFloat
  rw [show parseFloatCore "12.567".toList = ParseOut.fin false 12567 (-3) from by decide]
  norm_num

/-- Helper: `parseFloat "-5"` is the rational `-5`. -/
theorem parseFloat_neg_5 : parseFloat "-5" = JSNum.num (-5) := by
  unfold parseFloat
  rw [show parseFloatCore "-5".toList = ParseOut.fin true 5 0 from by decide]
  norm_num

/-- Helper: `parseFloat "abc"` is `NaN`. -/
theorem parseFloat_abc : parseFloat "abc" = JSNum.nan := by
  unfold parseFloat
  rw [show parseFloatCore "abc".toList = ParseOut.nan from by decide]

/-- Helper: `parseFloat "Infinity"` is `+Infinity`. -/
theorem parseFloat_infinity_str : parseFloat "Infinity" = JSNum.posInf := by
  unfold parseFloat
  rw [show parseFloatCore "Infinity".toList = ParseOut.inf false from by decide]

/-- Helper: `roundPrice` fixes `0`. -/
theorem roundPrice_zero : roundPrice 0 = 0 := by
  norm_num [roundPrice, jsMathRound]

/-- Helper: `roundPrice` preserves non-negativity. -/
theorem roundPrice_nonneg (p : ℚ) (hp : 0 ≤ p) : 0 ≤ roundPrice p := by
  unfold roundPrice jsMathRound
  have h0 : (0 : ℤ) ≤ ⌊p * 100 + 1 / 2⌋ := Int.floor_nonneg.mpr (by linarith)
  have h0q : (0 : ℚ) ≤ (⌊p * 100 + 1 / 2⌋ : ℚ) := by exact_mod_cast h0
  exact div_nonneg h0q (by norm_num)

/-- Helper: `roundPrice` is idempotent. -/
theorem roundPrice_round (x : ℚ) : roundPrice (roundPrice x) = roundPrice x := by
  rw [show roundPrice x = ((jsMathRound (x * 100) : ℤ) : ℚ) / 100 from rfl]
  exact roundPrice_intCast_div _

/-- Helper: any finite value produced by `parsePrice` is non-negative and is a
fixed point of `roundPrice` (i.e. already on the cent grid). -/
theorem parsePrice_num_inv (s : String) (q : ℚ) (h : parsePrice s = JSNum.num q) :
    0 ≤ q ∧ roundPrice q = q := by
  unfold parsePrice at h
  cases hpf : parseFloat s with
  | nan =>
      rw [hpf] at h
      simp only [jsIsNaN, Bool.true_or, if_true, JSNum.num.injEq] at h
      subst h
      exact ⟨le_refl 0, roundPrice_zero⟩
  | posInf =>
      rw [hpf] at h
      simp [jsIsNaN, jsLt, roundPriceJS] at h
  | negInf =>
      rw [hpf] at h
      simp only [jsIsNaN, jsLt, Bool.false_or, if_true, JSNum.num.injEq] at h
      subst h
      exact ⟨le_refl 0, roundPrice_zero⟩
  | num p =>
      rw [hpf] at h
      by_cases hneg : p < 0
      · simp only [jsIsNaN, jsLt, Bool.false_or, hneg, decide_True, if_true,
          JSNum.num.injEq] at h
        subst h
        exact ⟨le_refl 0, roundPrice_zero⟩
      · simp only [jsIsNaN, jsLt, Bool.false_or, hneg, decide_False, Bool.false_eq_true,
          if_false, roundPriceJS, JSNum.num.injEq] at h
        subst h
        exact ⟨roundPrice_nonneg p (not_lt.mp hneg), roundPrice_round p⟩

/-! ## Claims C4, C5, C6: the price utility -/

/-- Claim C4, counterexample: the claim predicts that the exact half-cent value
`-0.005` rounds away from zero to `-0.01`, but `roundPrice (-0.005) = 0`
because `Math.round` resolves ties toward positive infinity. -/
theorem claim_C4_counterexample :
    roundPrice (-(1 / 200)) = 0 ∧ roundPrice (-(1 / 200)) ≠ -(1 / 100) := by
  constructor
  · norm_num [roundPrice, jsMathRound]
  · norm_num [roundPrice, jsMathRound]

/-- Claim C4 (amended): for every value `x`, `roundPrice x` equals `n / 100`
where `n` is the integer nearest to `x * 100` with exact halves rounded toward
positive infinity; equivalently `x * 100` lies in `[n - 1/2, n + 1/2)`.  (The
original claim said ties round away from zero; `Math.round` rounds ties toward
`+∞`, so `roundPrice (-0.005) = 0`, not `-0.01`.) -/
theorem claim_C4_roundPrice_half_up (x : ℚ) :
    ∃ n : ℤ, roundPrice x = (n : ℚ) / 100 ∧
      (n : ℚ) - 1 / 2 ≤ x * 100 ∧ x * 100 < (n : ℚ) + 1 / 2 := by
  refine ⟨jsMathRound (x * 100), rfl, ?_, ?_⟩
  · exact (jsMathRound_char (x * 100)).1
  · exact (jsMathRound_char (x * 100)).2

/-- Claim C5, counterexample: the claim says `parsePrice` returns `0` whenever
the parsed value is infinite, but `parsePrice "Infinity"` is `+Infinity`:
`parseFloat "Infinity"` is `+Infinity`, which is neither `NaN` nor `< 0`, and
`Math.round(Infinity * 100) / 100` is still `+Infinity`. -/
theorem claim_C5_counterexample :
    parsePrice "Infinity" = JSNum.posInf ∧ JSNum.posInf ≠ JSNum.num 0 := by
  constructor
  · exact parsePrice_posInf _ parseFloat_infinity_str
  · simp

/-- Claim C5 (amended): `parsePrice` (a total function, so it never throws)
returns `0` when the parsed value is `NaN`, `-Infinity`, or negative; returns
`roundPrice` of the parsed value when it is finite and non-negative; and passes
`+Infinity` through unchanged (the original claim said every non-finite parse
yields `0`, which fails only for `+Infinity`).  The spec's four examples hold:
`parsePrice "-5" = 0`, `parsePrice "abc" = 0`, `parsePrice "12.5" = 12.5`,
`parsePrice "12.567" = 12.57`. -/
theorem claim_C5_parsePrice :
    (∀ s, parseFloat s = JSNum.nan → parsePrice s = JSNum.num 0)
    ∧ (∀ s, parseFloat s = JSNum.negInf → parsePrice s = JSNum.num 0)
    ∧ (∀ s q, parseFloat s = JSNum.num q → q < 0 → parsePrice s = JSNum.num 0)
    ∧ (∀ s q, parseFloat s = JSNum.num q → 0 ≤ q →
        parsePrice s = JSNum.num (roundPrice q))
    ∧ (∀ s, parseFloat s = JSNum.posInf → parsePrice s = JSNum.posInf)
    ∧ parsePrice "-5" = JSNum.num 0
    ∧ parsePrice "abc" = JSNum.num 0
    ∧ parsePrice "12.5" = JSNum.num (25 / 2)
    ∧ parsePrice "12.567" = JSNum.num (1257 / 100) := by
  refine ⟨parsePrice_eq_zero_of_nan, parsePrice_eq_zero_of_negInf,
    parsePrice_eq_zero_of_neg, parsePrice_round_of_nonneg, parsePrice_posInf,
    ?_, ?_, ?_, ?_⟩
  · exact parsePrice_eq_zero_of_neg _ (-5) parseFloat_neg_5 (by norm_num)
  · exact parsePrice_eq_zero_of_nan _ parseFloat_abc
  · rw [parsePrice_round_of_nonneg _ (25 / 2) parseFloat_12_5 (by norm_num)]
    norm_num [roundPrice, jsMathRound]
  · rw [parsePrice_round_of_nonneg _ (12567 / 1000) parseFloat_12_567 (by norm_num)]
    norm_num [roundPrice, jsMathRound]

/-- Claim C5, witness: the general clauses of the amended claim applied to the
concrete input `"0.004"`, whose parse is the non-negative rational `1/250`. -/
theorem claim_C5_witness : parsePrice "0.004" = JSNum.num (roundPrice (1 / 250)) := by
  refine claim_C5_parsePrice.2.2.2.1 "0.004" (1 / 250) ?_ (by norm_num)
  unfold parseFloat
  rw [show parseFloatCore "0.004".toList = ParseOut.fin false 4 (-3) from by decide]
  norm_num

/-- Claim C6 (confirmed): `roundPrice` is idempotent:
`roundPrice (roundPrice x) = roundPrice x` for every value `x`. -/
theorem claim_C6_roundPrice_idempotent (x : ℚ) :
    roundPrice (roundPrice x) = roundPrice x :=
  roundPrice_round x

/-! ## The menu data model and the analytics engine (`menuCalculations.ts`) -/

/-- A menu item as stored and processed (`src/types`): `description` is an
optional field, and `price` may be absent (`undefined`). -/
structure MenuItem where
  id : String
  name : String
  description : Option String
  price : Option ℚ
  category : String
deriving DecidableEq

/-- The destructuring `const { category, price = 0 } = items[i]`:
a missing price defaults to `0`. -/
def priceOrZero (i : MenuItem) : ℚ := i.price.getD 0

/-- One step of `calculateAveragePriceByCourse`'s FOR loop: initialise the
category's `{sum, count}` slot to `{0, 0}` when absent, then add the item's
price to `sum` and bump `count`.  The `Record` is modelled as a partial map
from category names. -/
def addItemToTotals (t : String → Option (ℚ × ℕ)) (i : MenuItem) :
    String → Option (ℚ × ℕ) :=
  fun c =>
    if c = i.category then
      some (((t i.category).getD (0, 0)).1 + priceOrZero i,
            ((t i.category).getD (0, 0)).2 + 1)
    else t c

/-- The `categoryTotals` record after the FOR loop of
`calculateAveragePriceByCourse`. -/
def categoryTotals (items : List MenuItem) : String → Option (ℚ × ℕ) :=
  items.foldl addItemToTotals (fun _ => none)

/-- `calculateAveragePriceByCourse` from `src/utils/menuCalculations.ts`:
the FOR...IN loop maps every key of `categoryTotals` to
`count > 0 ? roundPrice(sum / count) : 0`. -/
def calculateAveragePriceByCourse (items : List MenuItem) : String → Option ℚ :=
  fun category =>
    (categoryTotals items category).map
      (fun sc => if 0 < sc.2 then roundPrice (sc.1 / (sc.2 : ℚ)) else 0)

/-- The exact sum of the prices of the items of category `c`
(missing prices counted as `0`). -/
def catSum (c : String) (items : List MenuItem) : ℚ :=
  ((items.filter (fun i => i.category = c)).map priceOrZero).sum

/-- The number of items of category `c`. -/
def catCount (c : String) (items : List MenuItem) : ℕ :=
  (items.filter (fun i => i.category = c)).length

/-- Helper: when `c` appears in no item of `l`, the category filter is empty. -/
theorem filter_cat_eq_nil (c : String) (l : List MenuItem)
    (h : c ∉ l.map (fun i => i.category)) :
    l.filter (fun i => i.category = c) = [] := by
  rw [List.filter_eq_nil_iff]
  intro a ha
  simp only [decide_eq_true_eq]
  intro hac
  exact h (List.mem_map.mpr ⟨a, ha, hac⟩)

/-- Helper: prepending an item of category `c` adds its price to `catSum`. -/
theorem catSum_cons_pos (c : String) (i : MenuItem) (l : List MenuItem)
    (h : i.category = c) : catSum c (i :: l) = priceOrZero i + catSum c l := by
  simp [catSum, List.filter_cons, h]

/-- Helper: prepending an item of another category leaves `catSum` unchanged. -/
theorem catSum_cons_neg (c : String) (i : MenuItem) (l : List MenuItem)
    (h : ¬i.category = c) : catSum c (i :: l) = catSum c l := by
  simp [catSum, List.filter_cons, h]

/-- Helper: prepending an item of category `c` bumps `catCount`. -/
theorem catCount_cons_pos (c : String) (i : MenuItem) (l : List MenuItem)
    (h : i.category = c) : catCount c (i :: l) = catCount c l + 1 := by
  simp [catCount, List.filter_cons, h]

/-- Helper: prepending an item of another category leaves `catCount` unchanged. -/
theorem catCount_cons_neg (c : String) (i : MenuItem) (l : List MenuItem)
    (h : ¬i.category = c) : catCount c (i :: l) = catCount c l := by
  simp [catCount, List.filter_cons, h]

/-- Helper: the accumulated totals record, characterised extensionally: the
loop adds each category's exact price sum and item count on top of whatever
the accumulator already holds for that category. -/
theorem foldl_addItemToTotals (items : List MenuItem) :
    ∀ (t : String → Option (ℚ × ℕ)) (c : String),
      (items.foldl addItemToTotals t) c =
        if c ∈ items.map (fun i => i.category) then
          some (((t c).getD (0, 0)).1 + catSum c items,
                ((t c).getD (0, 0)).2 + catCount c items)
        else t c := by
  induction items with
  | nil =>
      intro t c
      simp [catSum, catCount]
  | cons i rest ih =>
      intro t c
      rw [List.foldl_cons, ih (addItemToTotals t i) c]
      by_cases hc : i.category = c
      · have hti : addItemToTotals t i c = some (((t c).getD (0, 0)).1 + priceOrZero i,
            ((t c).getD (0, 0)).2 + 1) := by
          rw [addItemToTotals, if_pos hc.symm, hc]
        have hhead : c ∈ (i :: rest).map (fun i => i.category) := by
          simp [hc.symm]
        rw [if_pos hhead, catSum_cons_pos c i rest hc, catCount_cons_pos c i rest hc]
        by_cases hmem : c ∈ rest.map (fun i => i.category)
        · rw [if_pos hmem, hti]
          refine congrArg some (Prod.ext ?_ ?_)
          · simp only [Option.getD_some]
            ring
          · simp only [Option.getD_some]
            rw [Nat.add_assoc, Nat.add_comm 1 (catCount c rest)]
        · rw [if_neg hmem, hti]
          have h0 : catSum c rest = 0 := by
            simp [catSum, filter_cat_eq_nil c rest hmem]
          have h1 : catCount c rest = 0 := by
            simp [catCount, filter_cat_eq_nil c rest hmem]
          rw [h0, h1]
          refine congrArg some (Prod.ext ?_ ?_)
          · simp only [Option.getD_some]
            ring
          · simp only [Option.getD_some]
      · have hti : addItemToTotals t i c = t c := by
          rw [addItemToTotals, if_neg (fun h => hc h.symm)]
        have hcons : (c ∈ (i :: rest).map (fun i => i.category))
            ↔ (c ∈ rest.map (fun i => i.category)) := by
          simp only [List.map_cons, List.mem_cons]
          constructor
          · rintro (h | h)
            · exact absurd h.symm hc
            · exact h
          · exact fun h => Or.inr h
        rw [hti, catSum_cons_neg c i rest hc, catCount_cons_neg c i rest hc]
        by_cases hmem : c ∈ rest.map (fun i => i.category)
        · rw [if_pos hmem, if_pos (hcons.mpr hmem)]
        · rw [if_neg hmem, if_neg (fun h => hmem (hcons.mp h))]

/-- Helper: the totals record holds exactly `(catSum, catCount)` for present
categories and nothing for absent ones. -/
theorem categoryTotals_eq (items : List MenuItem) (c : String) :
    categoryTotals items c =
      if c ∈ items.map (fun i => i.category) then some (catSum c items, catCount c items)
      else none := by
  rw [categoryTotals, foldl_addItemToTotals items (fun _ => none) c]
  simp

/-- Helper: a category that occurs has a positive item count. -/
theorem catCount_pos_of_mem (items : List MenuItem) (c : String)
    (h : c ∈ items.map (fun i => i.category)) : 0 < catCount c items := by
  obtain ⟨i, hi, hic⟩ := List.mem_map.mp h
  have hmem : i ∈ items.filter (fun i => i.category = c) :=
    List.mem_filter.mpr ⟨hi, by simpa using hic⟩
  rw [catCount]
  exact List.length_pos.mpr (List.ne_nil_of_mem hmem)

/-- Helper: the average reported for a present category is
`roundPrice (catSum / catCount)`. -/
theorem avg_of_mem (items : List MenuItem) (c : String)
    (h : c ∈ items.map (fun i => i.category)) :
    calculateAveragePriceByCourse items c
      = some (roundPrice (catSum c items / (catCount c items : ℚ))) := by
  rw [calculateAveragePriceByCourse, categoryTotals_eq, if_pos h]
  simp [catCount_pos_of_mem items c h]

/-- Helper: absent categories are absent from the result. -/
theorem avg_of_not_mem (items : List MenuItem) (c : String)
    (h : c ∉ items.map (fun i => i.category)) :
    calculateAveragePriceByCourse items c = none := by
  rw [calculateAveragePriceByCourse, categoryTotals_eq, if_neg h]
  rfl

/-- Helper: `catSum` distributes over append. -/
theorem catSum_append (c : String) (l₁ l₂ : List MenuItem) :
    catSum c (l₁ ++ l₂) = catSum c l₁ + catSum c l₂ := by
  simp [catSum, List.filter_append]

/-- Helper: `catCount` distributes over append. -/
theorem catCount_append (c : String) (l₁ l₂ : List MenuItem) :
    catCount c (l₁ ++ l₂) = catCount c l₁ + catCount c l₂ := by
  simp [catCount, List.filter_append]

/-! ## Claims C1 and C10: per-category averages -/

/-- Claim C1 (confirmed): for every collection, the mapping returned by
`calculateAveragePriceByCourse` has keys exactly the categories occurring in
the collection, maps each present category to
`roundPrice (sum of its prices / its item count)`, and is invariant under
permutation of the input.  (The `Record` is embedded as the partial map from
category names to values.) -/
theorem claim_C1_averagePriceByCourse :
    (∀ (items : List MenuItem) (c : String),
        (calculateAveragePriceByCourse items c).isSome = true
          ↔ c ∈ items.map (fun i => i.category))
    ∧ (∀ (items : List MenuItem) (c : String), c ∈ items.map (fun i => i.category) →
        calculateAveragePriceByCourse items c
          = some (roundPrice (catSum c items / (catCount c items : ℚ))))
    ∧ (∀ (items itemsPerm : List MenuItem), items.Perm itemsPerm →
        calculateAveragePriceByCourse items = calculateAveragePriceByCourse itemsPerm) := by
  refine ⟨?_, avg_of_mem, ?_⟩
  · intro items c
    constructor
    · intro h
      by_contra hmem
      rw [avg_of_not_mem items c hmem] at h
      simp at h
    · intro hmem
      rw [avg_of_mem items c hmem]
      rfl
  · intro items itemsPerm hperm
    funext c
    by_cases hmem : c ∈ items.map (fun i => i.category)
    · have hmem' : c ∈ itemsPerm.map (fun i => i.category) :=
        ((hperm.map _).mem_iff).mp hmem
      have hsum : catSum c items = catSum c itemsPerm :=
        List.Perm.sum_eq ((hperm.filter _).map priceOrZero)
      have hcount : catCount c items = catCount c itemsPerm :=
        List.Perm.length_eq (hperm.filter _)
      rw [avg_of_mem items c hmem, avg_of_mem itemsPerm c hmem', hsum, hcount]
    · have hmem' : c ∉ itemsPerm.map (fun i => i.category) :=
        fun h => hmem (((hperm.map _).mem_iff).mpr h)
      rw [avg_of_not_mem items c hmem, avg_of_not_mem itemsPerm c hmem']

/-- A sample item of category `mains` with price 10. -/
def demoSteak : MenuItem :=
  { id := "1", name := "Steak", description := none, price := some 10,
    category := "mains" }

/-- A sample item of category `mains` with price 15. -/
def demoPasta : MenuItem :=
  { id := "2", name := "Pasta", description := none, price := some 15,
    category := "mains" }

/-- A sample item of category `mains` with no price. -/
def demoMystery : MenuItem :=
  { id := "3", name := "Mystery", description := none, price := none,
    category := "mains" }

/-- Claim C1, witness: the averaging clause applied to a concrete
two-item collection. -/
theorem claim_C1_witness :
    calculateAveragePriceByCourse [demoSteak, demoPasta] "mains"
      = some (roundPrice (catSum "mains" [demoSteak, demoPasta]
          / (catCount "mains" [demoSteak, demoPasta] : ℚ))) :=
  claim_C1_averagePriceByCourse.2.1 [demoSteak, demoPasta] "mains"
    (by simp [demoSteak, demoPasta])

/-- Claim C10 (confirmed): an item with an absent price is still counted in
its category's item count, contributes `0` to the category's price sum, and
therefore enters (and lowers) the denominator of the reported average. -/
theorem claim_C10_missing_price_counted (pre post : List MenuItem) (i : MenuItem)
    (hp : i.price = none) :
    catSum i.category (pre ++ i :: post) = catSum i.category (pre ++ post)
    ∧ catCount i.category (pre ++ i :: post) = catCount i.category (pre ++ post) + 1
    ∧ calculateAveragePriceByCourse (pre ++ i :: post) i.category
        = some (roundPrice (catSum i.category (pre ++ post)
            / ((catCount i.category (pre ++ post) : ℚ) + 1))) := by
  have hzero : priceOrZero i = 0 := by
    simp [priceOrZero, hp]
  have hsum : catSum i.category (pre ++ i :: post) = catSum i.category (pre ++ post) := by
    rw [catSum_append, catSum_cons_pos _ i post rfl, hzero, catSum_append]
    ring
  have hcount : catCount i.category (pre ++ i :: post)
      = catCount i.category (pre ++ post) + 1 := by
    rw [catCount_append, catCount_cons_pos _ i post rfl, catCount_append]
    ring
  refine ⟨hsum, hcount, ?_⟩
  have hmem : i.category ∈ (pre ++ i :: post).map (fun j => j.category) :=
    List.mem_map.mpr ⟨i, by simp, rfl⟩
  rw [avg_of_mem _ _ hmem, hsum, hcount]
  push_cast
  rfl

/-- Claim C10, witness: the statement applied to the concrete priceless item
`demoMystery` inserted between `demoSteak` and `demoPasta`. -/
theorem claim_C10_witness :
    catSum demoMystery.category ([demoSteak] ++ demoMystery :: [demoPasta])
        = catSum demoMystery.category ([demoSteak] ++ [demoPasta])
    ∧ catCount demoMystery.category ([demoSteak] ++ demoMystery :: [demoPasta])
        = catCount demoMystery.category ([demoSteak] ++ [demoPasta]) + 1
    ∧ calculateAveragePriceByCourse ([demoSteak] ++ demoMystery :: [demoPasta])
          demoMystery.category
        = some (roundPrice (catSum demoMystery.category ([demoSteak] ++ [demoPasta])
            / ((catCount demoMystery.category ([demoSteak] ++ [demoPasta]) : ℚ) + 1))) :=
  claim_C10_missing_price_counted [demoSteak] [demoPasta] demoMystery rfl

/-! ## Claim C3: search -/

/-- Model of the JavaScript `String.prototype.trim` builtin: strip whitespace
from both ends. -/
def jsTrim (s : String) : String :=
  String.mk (((s.toList.dropWhile Char.isWhitespace).reverse.dropWhile
    Char.isWhitespace).reverse)

/-- Model of the JavaScript `String.prototype.toLowerCase` builtin
(character-wise lowering). -/
def toLowerStr (s : String) : String := String.mk (s.toList.map Char.toLower)

/-- Does the list contain the pattern as a contiguous sublist? -/
def charsSub (pat : List Char) : List Char → Bool
  | [] => charsPre pat []
  | a :: rest => charsPre pat (a :: rest) || charsSub pat rest

/-- Model of the JavaScript `String.prototype.includes` builtin:
`hay` contains `needle` as a substring. -/
def jsIncludes (hay needle : String) : Bool := charsSub needle.toList hay.toList

/-- The match test of `searchMenuItems`'s WHILE loop body:
`item.name.toLowerCase().includes(t) || item.description?.toLowerCase().includes(t)`
(an absent description is `undefined`, which is falsy). -/
def matchesSearch (t : String) (item : MenuItem) : Bool :=
  jsIncludes (toLowerStr item.name) t
  || (match item.description with
      | some d => jsIncludes (toLowerStr d) t
      | none => false)

/-- The WHILE loop of `searchMenuItems`: walk the items in order, pushing each
match onto the `results` array. -/
def searchLoopAcc (t : String) (results : List MenuItem) :
    List MenuItem → List MenuItem
  | [] => results
  | item :: rest =>
      searchLoopAcc t (if matchesSearch t item then results ++ [item] else results) rest

/-- `searchMenuItems` from `src/utils/menuCalculations.ts`: return the input
when the trimmed term is empty, else collect the items matching
`searchTerm.toLowerCase().trim()`. -/
def searchMenuItems (items : List MenuItem) (searchTerm : String) : List MenuItem :=
  if jsTrim searchTerm = "" then items
  else searchLoopAcc (jsTrim (toLowerStr searchTerm)) [] items

/-- Following the spec's words for the matching predicate of claim C3: an item
matches when its name or description contains the search term itself — not the
trimmed term — as a case-insensitive substring. -/
def specContainsTerm (term : String) (item : MenuItem) : Bool :=
  jsIncludes (toLowerStr item.name) (toLowerStr term)
  || (match item.description with
      | some d => jsIncludes (toLowerStr d) (toLowerStr term)
      | none => false)

/-- Helper: the accumulator form of the WHILE loop is append-of-filter. -/
theorem searchLoopAcc_eq (t : String) (items : List MenuItem) :
    ∀ acc, searchLoopAcc t acc items = acc ++ items.filter (matchesSearch t) := by
  induction items with
  | nil =>
      intro acc
      simp [searchLoopAcc]
  | cons i rest ih =>
      intro acc
      have hstep : searchLoopAcc t acc (i :: rest)
          = searchLoopAcc t (if matchesSearch t i then acc ++ [i] else acc) rest := rfl
      rw [hstep]
      by_cases hm : matchesSearch t i = true
      · rw [if_pos hm, ih, List.filter_cons, if_pos hm]
        simp
      · rw [if_neg hm, ih, List.filter_cons, if_neg hm]

/-- A sample item whose name `"ab"` contains `"b"` but not `" b"`. -/
def demoAb : MenuItem :=
  { id := "9", name := "ab", description := none, price := none,
    category := "mains" }

/-- Claim C3, counterexample: for the padded term `" b"` the code matches
against the trimmed term `"b"` and returns the item named `"ab"`, while the
claim's predicate — name or description containing the term `" b"` itself —
matches nothing. -/
theorem claim_C3_counterexample :
    searchMenuItems [demoAb] " b" = [demoAb]
    ∧ [demoAb].filter (specContainsTerm " b") = [] := by
  constructor
  · decide
  · decide

/-- Claim C3 (amended): when the term trims to the empty string the input
collection is returned unchanged (the function is pure, so the caller's
sequence is never mutated); otherwise exactly the items whose lowered name or
description contains the *trimmed lowered* term are returned, in their
original relative order (a `filter` of the input).  The original claim
compared against the term itself; the code compares against
`term.toLowerCase().trim()`, which differs for terms with surrounding
whitespace. -/
theorem claim_C3_search :
    (∀ (items : List MenuItem) (term : String), jsTrim term = "" →
        searchMenuItems items term = items)
    ∧ (∀ (items : List MenuItem) (term : String), jsTrim term ≠ "" →
        searchMenuItems items term
          = items.filter (matchesSearch (jsTrim (toLowerStr term)))) := by
  constructor
  · intro items term h
    rw [searchMenuItems, if_pos h]
  · intro items term h
    rw [searchMenuItems, if_neg h, searchLoopAcc_eq _ items []]
    rfl

/-- Claim C3, witness: both clauses applied at concrete inputs: a whitespace
term returns the collection unchanged, and the term `"B"` filters it. -/
theorem claim_C3_witness :
    searchMenuItems [demoAb, demoSteak] "  " = [demoAb, demoSteak]
    ∧ searchMenuItems [demoAb, demoSteak] "B"
        = [demoAb, demoSteak].filter (matchesSearch (jsTrim (toLowerStr "B"))) :=
  ⟨claim_C3_search.1 [demoAb, demoSteak] "  " (by decide),
   claim_C3_search.2 [demoAb, demoSteak] "B" (by decide)⟩

/-! ## Claims C2 and C8: the global statistics cache -/

/-- The module-level mutable cache of `menuCalculations.ts`:
`totalMenuItems`, `totalMenuValue`, `lastCalculationTime`
(a timestamp, modelled as a natural number). -/
structure StatsCache where
  totalMenuItems : ℕ
  totalMenuValue : ℚ
  lastCalculationTime : Option ℕ
deriving DecidableEq

/-- `updateGlobalStatistics` from `src/utils/menuCalculations.ts`: overwrite
the cache with the item count, the rounded sum of the prices
(`items[i].price || 0`, so a missing price counts as `0`), and the current
time.  The previous cache content is discarded. -/
def updateGlobalStatistics (items : List MenuItem) (now : ℕ) (_s : StatsCache) :
    StatsCache :=
  { totalMenuItems := items.length
    totalMenuValue := roundPrice (items.foldl (fun acc i => acc + priceOrZero i) 0)
    lastCalculationTime := some now }

/-- The record returned by `getGlobalStatistics`. -/
structure GlobalStats where
  totalMenuItems : ℕ
  totalMenuValue : ℚ
  lastCalculationTime : Option ℕ
  averageItemPrice : ℚ
deriving DecidableEq

/-- `getGlobalStatistics` from `src/utils/menuCalculations.ts`: read the cache
and derive `averageItemPrice = totalMenuItems > 0 ?
roundPrice(totalMenuValue / totalMenuItems) : 0`. -/
def getGlobalStatistics (s : StatsCache) : GlobalStats :=
  { totalMenuItems := s.totalMenuItems
    totalMenuValue := roundPrice s.totalMenuValue
    lastCalculationTime := s.lastCalculationTime
    averageItemPrice :=
      if 0 < s.totalMenuItems then roundPrice (s.totalMenuValue / (s.totalMenuItems : ℚ))
      else 0 }

/-- The exact sum of all prices (missing prices as `0`). -/
def sumPrices (items : List MenuItem) : ℚ := (items.map priceOrZero).sum

/-- Helper: the FOR loop accumulation is the sum of the prices. -/
theorem foldl_add_priceOrZero (items : List MenuItem) :
    ∀ a : ℚ, items.foldl (fun acc i => acc + priceOrZero i) a = a + sumPrices items := by
  induction items with
  | nil =>
      intro a
      simp [sumPrices]
  | cons i rest ih =>
      intro a
      rw [List.foldl_cons, ih (a + priceOrZero i)]
      simp only [sumPrices, List.map_cons, List.sum_cons]
      ring

/-- Claim C2 (confirmed): immediately after `updateGlobalStatistics items`,
`getGlobalStatistics` reports `totalMenuItems = items.length`,
`totalMenuValue = roundPrice (sum of prices, missing price as 0)`, and
`averageItemPrice = roundPrice (totalMenuValue / totalMenuItems)`
(`0` when the collection is empty). -/
theorem claim_C2_recompute_snapshot (items : List MenuItem) (now : ℕ) (s : StatsCache) :
    (getGlobalStatistics (updateGlobalStatistics items now s)).totalMenuItems
        = items.length
    ∧ (getGlobalStatistics (updateGlobalStatistics items now s)).totalMenuValue
        = roundPrice (sumPrices items)
    ∧ (getGlobalStatistics (updateGlobalStatistics items now s)).averageItemPrice
        = (if 0 < items.length then
            roundPrice (roundPrice (sumPrices items) / (items.length : ℚ))
          else 0) := by
  refine ⟨rfl, ?_, ?_⟩
  · show roundPrice (roundPrice (items.foldl (fun acc i => acc + priceOrZero i) 0))
        = roundPrice (sumPrices items)
    rw [foldl_add_priceOrZero items 0, zero_add, roundPrice_round]
  · show (if 0 < items.length then
          roundPrice (roundPrice (items.foldl (fun acc i => acc + priceOrZero i) 0)
            / (items.length : ℚ))
        else 0) = _
    rw [foldl_add_priceOrZero items 0, zero_add]

/-- The analytics operations of `menuCalculations.ts`, as invocations: the
cache recomputation, the statistics snapshot, the per-category averages, the
search, and the category labels. -/
inductive AnalyticsOp where
  | update (items : List MenuItem) (now : ℕ) : AnalyticsOp
  | snapshot : AnalyticsOp
  | averages (items : List MenuItem) : AnalyticsOp
  | searchOp (items : List MenuItem) (term : String) : AnalyticsOp
  | labels : AnalyticsOp
deriving DecidableEq

/-- The effect of one analytics operation on the cache variables:
`updateGlobalStatistics` assigns all three of them; the bodies of
`getGlobalStatistics`, `calculateAveragePriceByCourse`, `searchMenuItems` and
`getCategoryLabels` contain no assignment to any of them, so their cache
effect is the identity. -/
def stepAnalytics (s : StatsCache) : AnalyticsOp → StatsCache
  | AnalyticsOp.update items now => updateGlobalStatistics items now s
  | AnalyticsOp.snapshot => s
  | AnalyticsOp.averages _ => s
  | AnalyticsOp.searchOp _ _ => s
  | AnalyticsOp.labels => s

/-- Run a sequence of analytics operations against the cache. -/
def runAnalytics (s : StatsCache) : List AnalyticsOp → StatsCache
  | [] => s
  | op :: ops => runAnalytics (stepAnalytics s op) ops

/-- Is the operation the cache mutator `updateGlobalStatistics`? -/
def isRecompute : AnalyticsOp → Bool
  | AnalyticsOp.update _ _ => true
  | _ => false

/-- Claim C8 (confirmed): a sequence of analytics operations containing no
`updateGlobalStatistics` call — snapshots included, and whatever item
collections the other operations are applied to — leaves the cache variables
untouched, so any two snapshots taken across it are equal. -/
theorem claim_C8_snapshot_frame (s : StatsCache) (ops : List AnalyticsOp)
    (h : ∀ op ∈ ops, isRecompute op = false) :
    runAnalytics s ops = s
    ∧ getGlobalStatistics (runAnalytics s ops) = getGlobalStatistics s := by
  have hrun : runAnalytics s ops = s := by
    induction ops generalizing s with
    | nil => rfl
    | cons op rest ih =>
        have hop : isRecompute op = false := h op (List.mem_cons_self op rest)
        have hstep : stepAnalytics s op = s := by
          cases op with
          | update items now => simp [isRecompute] at hop
          | snapshot => rfl
          | averages _ => rfl
          | searchOp _ _ => rfl
          | labels => rfl
        rw [runAnalytics, hstep]
        exact ih s (fun o ho => h o (List.mem_cons_of_mem op ho))
  exact ⟨hrun, by rw [hrun]⟩

/-- Claim C8, witness: a concrete cache and a concrete update-free operation
sequence (a snapshot, a search, an averages query and the labels query). -/
theorem claim_C8_witness :
    runAnalytics ⟨3, 5, some 7⟩
        [AnalyticsOp.snapshot, AnalyticsOp.searchOp [] "x", AnalyticsOp.averages [],
         AnalyticsOp.labels] = ⟨3, 5, some 7⟩
    ∧ getGlobalStatistics (runAnalytics ⟨3, 5, some 7⟩
        [AnalyticsOp.snapshot, AnalyticsOp.searchOp [] "x", AnalyticsOp.averages [],
         AnalyticsOp.labels]) = getGlobalStatistics ⟨3, 5, some 7⟩ :=
  claim_C8_snapshot_frame ⟨3, 5, some 7⟩
    [AnalyticsOp.snapshot, AnalyticsOp.searchOp [] "x", AnalyticsOp.averages [],
     AnalyticsOp.labels]
    (by intro op hop; fin_cases hop <;> rfl)

/-! ## Claim C7: the `AddItemScreen.handleSave` validation boundary -/

/-- The `MenuCategory` union type of `src/types`: exactly the four known
course keys. -/
inductive MenuCategory where
  | appetizers : MenuCategory
  | mains : MenuCategory
  | desserts : MenuCategory
  | beverages : MenuCategory
deriving DecidableEq

/-- The string key of a category. -/
def MenuCategory.key : MenuCategory → String
  | MenuCategory.appetizers => "appetizers"
  | MenuCategory.mains => "mains"
  | MenuCategory.desserts => "desserts"
  | MenuCategory.beverages => "beverages"

/-- The form state of `AddItemScreen` at the moment Save is pressed. -/
structure AddItemForm where
  name : String
  description : String
  price : String
  category : MenuCategory
  isEditing : Bool
  editingId : Option String
deriving DecidableEq

/-- The object literal `handleSave` builds and hands to `saveMenuItem`
(its `price` is a raw JS number, so possibly non-finite). -/
structure SavedMenuItem where
  id : String
  name : String
  description : String
  price : JSNum
  category : MenuCategory
deriving DecidableEq

/-- The observable outcome of one `handleSave` run: a validation alert, or a
call to the persistence gateway with the built item. -/
inductive SaveOutcome where
  | validationError (message : String) : SaveOutcome
  | saved (item : SavedMenuItem) : SaveOutcome
deriving DecidableEq

/-- `handleSave` from `src/screens/AddItemScreen.tsx`: reject when the
trimmed name or trimmed price text is empty; parse the price and reject when
`!isValidPrice(priceNumber) || priceNumber <= 0`; otherwise build the item
(trimmed name and description, parsed price, selected category, existing id
when editing else `Date.now().toString()`, modelled by `nowId`) and pass it to
`saveMenuItem`. -/
def handleSave (f : AddItemForm) (nowId : String) : SaveOutcome :=
  if jsTrim f.name = "" ∨ jsTrim f.price = "" then
    SaveOutcome.validationError "Please fill in item name and price"
  else
    let priceNumber := parsePrice f.price
    if !isValidPrice (some priceNumber) || jsLe priceNumber (JSNum.num 0) then
      SaveOutcome.validationError "Please enter a valid price greater than 0"
    else
      SaveOutcome.saved
        { id := if f.isEditing then f.editingId.getD "" else nowId
          name := jsTrim f.name
          description := jsTrim f.description
          price := parsePrice f.price
          category := f.category }

/-- A form holding the unvalidated price text `"Infinity"`. -/
def demoInfForm : AddItemForm :=
  { name := "Tea", description := "", price := "Infinity",
    category := MenuCategory.beverages, isEditing := false, editingId := none }

/-- The item `handleSave` builds from `demoInfForm`: its price is `+Infinity`. -/
def demoInfItem : SavedMenuItem :=
  { id := "42", name := "Tea", description := "", price := JSNum.posInf,
    category := MenuCategory.beverages }

/-- Helper: `parsePrice "Infinity"` is `+Infinity`. -/
theorem parsePrice_infinity_str : parsePrice "Infinity" = JSNum.posInf :=
  parsePrice_posInf _ parseFloat_infinity_str

/-- Claim C7, counterexample: with price text `"Infinity"` the validation
passes (`isValidPrice(Infinity)` is true and `Infinity <= 0` is false) and the
persistence gateway receives an item whose price is `+Infinity` — not a value
rounded to the nearest cent as the claim asserts of every saved item. -/
theorem claim_C7_counterexample :
    handleSave demoInfForm "42" = SaveOutcome.saved demoInfItem
    ∧ jsIsFinite demoInfItem.price = false := by
  constructor
  · rw [handleSave, if_neg (by decide)]
    rw [show parsePrice demoInfForm.price = JSNum.posInf from parsePrice_infinity_str]
    rfl
  · rfl

/-- Claim C7 (amended): `saveMenuItem` is invoked only when the trimmed name
is non-empty and the parsed price passes `isValidPrice` and is not `<= 0`;
every saved item carries the trimmed non-empty name, one of the four known
category keys, and a price equal to `parsePrice` of the user input — which is
non-negative, and is on the cent grid whenever it is finite (the unvalidated
input `"Infinity"` produces an infinite, hence unrounded, price). -/
theorem claim_C7_handleSave (f : AddItemForm) (nowId : String) (item : SavedMenuItem)
    (h : handleSave f nowId = SaveOutcome.saved item) :
    jsTrim f.name ≠ ""
    ∧ isValidPrice (some (parsePrice f.price)) = true
    ∧ jsLe (parsePrice f.price) (JSNum.num 0) = false
    ∧ item.name = jsTrim f.name
    ∧ item.price = parsePrice f.price
    ∧ MenuCategory.key item.category ∈
        ["appetizers", "mains", "desserts", "beverages"]
    ∧ (∀ q : ℚ, item.price = JSNum.num q → 0 < q ∧ roundPrice q = q) := by
  rw [handleSave] at h
  by_cases h1 : jsTrim f.name = "" ∨ jsTrim f.price = ""
  · rw [if_pos h1] at h
    cases h
  · rw [if_neg h1] at h
    push_neg at h1
    by_cases h2 : (!isValidPrice (some (parsePrice f.price))
        || jsLe (parsePrice f.price) (JSNum.num 0)) = true
    · rw [if_pos h2] at h
      cases h
    · rw [if_neg h2] at h
      have hval : isValidPrice (some (parsePrice f.price)) = true := by
        cases hb : isValidPrice (some (parsePrice f.price)) with
        | true => rfl
        | false => exact absurd (by simp [hb]) h2
      have hle : jsLe (parsePrice f.price) (JSNum.num 0) = false := by
        cases hb : jsLe (parsePrice f.price) (JSNum.num 0) with
        | false => rfl
        | true => exact absurd (by simp [hb]) h2
      injection h with hitem
      subst hitem
      refine ⟨h1.1, hval, hle, rfl, rfl, ?_, ?_⟩
      · cases f.category <;> simp [MenuCategory.key]
      · intro q hq
        have hq' : parsePrice f.price = JSNum.num q := hq
        have hinv := parsePrice_num_inv f.price q hq'
        rw [hq'] at hle
        have hqpos : ¬q ≤ 0 := by
          simpa [jsLe] using hle
        exact ⟨lt_of_not_le hqpos, hinv.2⟩

/-- A valid form: name `" Tea "`, price text `"5"`. -/
def demoTeaForm : AddItemForm :=
  { name := " Tea ", description := "hot", price := "5",
    category := MenuCategory.beverages, isEditing := false, editingId := none }

/-- The item `handleSave` builds from `demoTeaForm`. -/
def demoTeaSaved : SavedMenuItem :=
  { id := "7", name := "Tea", description := "hot", price := JSNum.num 5,
    category := MenuCategory.beverages }

/-- Helper: `parsePrice "5"` is the rational `5`. -/
theorem parsePrice_five : parsePrice "5" = JSNum.num 5 := by
  have hpf : parseFloat "5" = JSNum.num 5 := by
    unfold parseFloat
    rw [show parseFloatCore "5".toList = ParseOut.fin false 5 0 from by decide]
    norm_num
  rw [parsePrice_round_of_nonneg "5" 5 hpf (by norm_num)]
  norm_num [roundPrice, jsMathRound]

/-- Helper: `handleSave` on the valid demo form calls the gateway with the
built item. -/
theorem handleSave_demoTea :
    handleSave demoTeaForm "7" = SaveOutcome.saved demoTeaSaved := by
  rw [handleSave, if_neg (by decide)]
  rw [show parsePrice demoTeaForm.price = JSNum.num 5 from parsePrice_five]
  rw [if_neg (by norm_num [isValidPrice, jsIsNaN, jsLe])]
  rfl

/-- Claim C7, witness: the amended claim applied to the concrete valid form
`demoTeaForm`, whose save goes through. -/
theorem claim_C7_witness :
    jsTrim demoTeaForm.name ≠ ""
    ∧ demoTeaSaved.price = parsePrice demoTeaForm.price :=
  ⟨(claim_C7_handleSave demoTeaForm "7" demoTeaSaved handleSave_demoTea).1,
   (claim_C7_handleSave demoTeaForm "7" demoTeaSaved handleSave_demoTea).2.2.2.2.1⟩

/-! ## Claim C9: the persistence gateway's upsert -/

/-- Modelled from the spec: `saveMenuItem` (upsert) of `src/utils/storage.ts`,
whose implementation file is missing from the repository snapshot (only its
imports in the screens are present).  Per the spec, the gateway loads the full
stored collection, replaces the entry whose `id` matches `item.id` if one
exists, otherwise appends `item`, then writes the full collection back; the
stored collection is modelled as the list itself, so the write-back is the
returned list. -/
def saveMenuItem (item : MenuItem) (stored : List MenuItem) : List MenuItem :=
  if stored.any (fun i => i.id = item.id) then
    stored.map (fun i => if i.id = item.id then item else i)
  else stored ++ [item]

/-- Claim C9 (confirmed against the spec model): saving an item whose `id` is
new appends exactly that item to the prior collection; saving an item with an
existing `id` keeps the collection length and replaces exactly the entries at
the positions whose `id` matches, leaving every other position untouched. -/
theorem claim_C9_upsert (item : MenuItem) (stored : List MenuItem) :
    ((∀ i ∈ stored, i.id ≠ item.id) → saveMenuItem item stored = stored ++ [item])
    ∧ ((∃ i ∈ stored, i.id = item.id) →
        (saveMenuItem item stored).length = stored.length
        ∧ ∀ j : ℕ, (saveMenuItem item stored)[j]?
            = (stored[j]?).map (fun i => if i.id = item.id then item else i)) := by
  constructor
  · intro hnew
    rw [saveMenuItem, if_neg ?_]
    simp only [List.any_eq_true, decide_eq_true_eq, not_exists]
    intro i hpair
    exact hnew i hpair.1 hpair.2
  · intro hexists
    obtain ⟨i, hmem, hid⟩ := hexists
    rw [saveMenuItem, if_pos ?side]
    case side =>
      simp only [List.any_eq_true, decide_eq_true_eq]
      exact ⟨i, hmem, hid⟩
    constructor
    · exact List.length_map _ _
    · intro j
      exact List.getElem?_map _ _ _

/-- Claim C9, witness: both branches of the upsert at concrete collections:
appending the new-id item `demoPasta` to `[demoSteak]`, and replacing the
position of `demoSteak` when saving an item with its id. -/
theorem claim_C9_witness :
    saveMenuItem demoPasta [demoSteak] = [demoSteak] ++ [demoPasta]
    ∧ (saveMenuItem demoSteak [demoSteak, demoPasta]).length
        = [demoSteak, demoPasta].length :=
  ⟨(claim_C9_upsert demoPasta [demoSteak]).1 (by decide),
   ((claim_C9_upsert demoSteak [demoSteak, demoPasta]).2 (by decide)).1⟩

end Mast
